import Mathlib

/-!
Shallow embedding of the voice-catalog construction pipeline of
`wyoming_cloud_streamer/__main__.py`: loading the builtin provider table,
merging an optional user override table, synthesizing per-voice descriptors
with provider-specific naming rules, and sorting them for advertisement.

JSON provider tables are modelled as insertion-ordered association lists
(Python dicts preserve insertion order and have unique keys).  A provider's
value is either a well-shaped object (`PVal.obj`, holding the optional
`voices` and `languages` string lists) or any other JSON value
(`PVal.raw`), on which the dynamic attribute/key accesses of the source
raise.  File-system and JSON-parsing effects are modelled as input data
(`BuiltinSource`, `OverrideSource`) so that the source's try/except control
flow becomes explicit case analysis.
-/

namespace WyomingCloudStreamer

/-- A JSON object of the shape `{"voices": [...], "languages": [...]}`; either
key may be absent (the merge uses `.get(key, [])` defaults, the synthesizer
indexes directly and can raise `KeyError`). -/
structure RawEntry where
  voices? : Option (List String)
  languages? : Option (List String)
deriving DecidableEq, Repr

/-- A provider's value in a parsed catalog table: a well-shaped object, or any
other JSON value (modelled by its text), on which `.get` raises
`AttributeError` and `[...]` indexing raises `TypeError`. -/
inductive PVal where
  | obj : RawEntry → PVal
  | raw : String → PVal
deriving DecidableEq, Repr

/-- A parsed catalog table: provider keys to values, in insertion order. -/
abbrev ProviderTable := List (String × PVal)

/-- `t[k]` / `k in t` lookup on a table (first occurrence of the key). -/
def lookupKey (t : ProviderTable) (k : String) : Option PVal :=
  match t with
  | [] => none
  | (k', v) :: rest => if k' = k then some v else lookupKey rest k

/-- `d.get("voices", [])` on a provider value; on a non-object the attribute
access raises (`AttributeError`). -/
def getVoices : PVal → Except String (List String)
  | .obj e => .ok (e.voices?.getD [])
  | .raw _ => .error "AttributeError: get"

/-- `d.get("languages", [])` on a provider value; raises on a non-object. -/
def getLanguages : PVal → Except String (List String)
  | .obj e => .ok (e.languages?.getD [])
  | .raw _ => .error "AttributeError: get"

/-- `d["voices"]` on a provider value; raises on a missing key (`KeyError`)
or a non-object (`TypeError`). -/
def indexVoices : PVal → Except String (List String)
  | .obj e => match e.voices? with
    | some l => .ok l
    | none => .error "KeyError: voices"
  | .raw _ => .error "TypeError: not a dict"

/-- `d["languages"]` on a provider value; raises on a missing key or a
non-object. -/
def indexLanguages : PVal → Except String (List String)
  | .obj e => match e.languages? with
    | some l => .ok l
    | none => .error "KeyError: languages"
  | .raw _ => .error "TypeError: not a dict"

/-- The list-merge loop of the source: starting from the builtin list, append
each override element not already present (`if v not in base_voices:
base_voices.append(v)`). -/
def mergeList (base : List String) : List String → List String
  | [] => base
  | v :: rest => if v ∈ base then mergeList base rest else mergeList (base ++ [v]) rest

/-- `t[k] = e` when `k` is already a key of `t`: replace the value at the
key's existing position. -/
def setKey (t : ProviderTable) (k : String) (e : PVal) : ProviderTable :=
  match t with
  | [] => []
  | (k', v) :: rest => if k' = k then (k, e) :: rest else (k', v) :: setKey rest k e

/-- One iteration of the source's override-merge loop, for override pair
`(provider, pdata)`.  A new provider is appended unchanged; an existing one
gets its `voices` and `languages` lists merged and both keys rewritten.  An
`AttributeError` from a non-object value aborts the iteration before any
mutation; the error payload carries the table state at that point. -/
def mergeStep (t : ProviderTable) (provider : String) (pdata : PVal) :
    Except ProviderTable ProviderTable :=
  match lookupKey t provider with
  | none => .ok (t ++ [(provider, pdata)])
  | some (.raw _) => .error t
  | some (.obj be) =>
    match pdata with
    | .raw _ => .error t
    | .obj pe =>
        .ok (setKey t provider (.obj
          ⟨some (mergeList (be.voices?.getD []) (pe.voices?.getD [])),
           some (mergeList (be.languages?.getD []) (pe.languages?.getD []))⟩))

/-- The override-merge loop over all override pairs.  An exception stops the
loop; the surrounding `except Exception` logs and continues, so the result is
the table state at the time of the exception, plus a flag recording whether
an exception occurred. -/
def mergeRun (t : ProviderTable) : List (String × PVal) → ProviderTable × Bool
  | [] => (t, false)
  | (k, v) :: rest =>
    match mergeStep t k v with
    | .ok t' => mergeRun t' rest
    | .error t' => (t', true)

/-- The merged table the pipeline continues with after override processing. -/
def merge (builtin override : ProviderTable) : ProviderTable :=
  (mergeRun builtin override).1

/-- Outcome of resolving the `CUSTOM_VOICES_PATH` override source, read off
the environment and file system. -/
inductive OverrideSource where
  | noPath
  | fileMissing
  | unreadable (msg : String)
  | parseError (msg : String)
  | parsed (t : ProviderTable)
deriving DecidableEq, Repr

/-- The whole optional-override block: an empty path or a missing file skips
the merge; an exception while opening or parsing is caught and logged, the
builtin table is untouched; a parsed table is merged in. -/
def applyOverride (builtin : ProviderTable) : OverrideSource → ProviderTable
  | .noPath => builtin
  | .fileMissing => builtin
  | .unreadable _ => builtin
  | .parseError _ => builtin
  | .parsed t => merge builtin t

/-- Outcome of reading and parsing the builtin `voices.json`. -/
inductive BuiltinSource where
  | notFound
  | unreadable (msg : String)
  | parseError (msg : String)
  | parsed (t : ProviderTable)
deriving DecidableEq, Repr

/-- The builtin-catalog load: `FileNotFoundError` is caught, logged and
re-raised; any other read or parse failure propagates uncaught.  Either way
no table is produced on failure. -/
def loadBuiltin : BuiltinSource → Except String ProviderTable
  | .notFound => .error "FileNotFoundError"
  | .unreadable msg => .error msg
  | .parseError msg => .error msg
  | .parsed t => .ok t

/-- `language.replace('_', '-', 1)` on the underlying character list: only
the first underscore becomes a hyphen. -/
def replaceFirstUnderscore : List Char → List Char
  | [] => []
  | c :: cs => if c = '_' then '-' :: cs else c :: replaceFirstUnderscore cs

/-- Language-tag normalization used in every canonical voice name. -/
def normLang (language : String) : String :=
  ⟨replaceFirstUnderscore language.data⟩

/-- Python `str.capitalize()` (ASCII fragment): first character uppercased,
every following character lowercased. -/
def capitalize (s : String) : String :=
  match s.data with
  | [] => ""
  | c :: cs => ⟨c.toUpper :: cs.map Char.toLower⟩

/-- Attribution record of a voice or program. -/
structure Attribution where
  name : String
  url : String
deriving DecidableEq, Repr

/-- The advertisable voice descriptor (`wyoming.info.TtsVoice`). -/
structure TtsVoice where
  name : String
  description : String
  attribution : Attribution
  installed : Bool
  version : Option String
  languages : List String
  speakers : Option (List String)
deriving DecidableEq, Repr

/-- The descriptor built for one (provider, voice, language) triple,
following the provider-key string switch of the source. -/
def makeVoice (key voice language : String) : TtsVoice :=
  if key = "google" then
    { name := normLang language ++ "-Chirp3-HD-" ++ voice
      description := "google_" ++ voice
      attribution := ⟨"Google", "https://cloud.google.com/text-to-speech/docs/chirp3-hd"⟩
      installed := true, version := none, languages := [language], speakers := none }
  else if key = "openai" then
    { name := normLang language ++ "-openai-" ++ voice
      description := "openai_" ++ voice
      attribution := ⟨"OpenAI", "https://platform.openai.com/docs/guides/text-to-speech"⟩
      installed := true, version := none, languages := [language], speakers := none }
  else
    { name := normLang language ++ "-" ++ key ++ "-" ++ voice
      description := key ++ "_" ++ voice
      attribution := ⟨capitalize key, ""⟩
      installed := true, version := none, languages := [language], speakers := none }

/-- The outer voice loop for one provider: `voices_data[key]["languages"]`
is re-indexed for every voice, so a missing `languages` key only raises once
some voice is reached. -/
def synthVoiceLoop (key : String) (p : PVal) : List String → Except String (List TtsVoice)
  | [] => .ok []
  | v :: rest =>
    match indexLanguages p with
    | .error e => .error e
    | .ok ls =>
      match synthVoiceLoop key p rest with
      | .error e => .error e
      | .ok tail => .ok (ls.map (makeVoice key v) ++ tail)

/-- Descriptor synthesis for one provider entry: `voices_data[key]["voices"]`
is indexed first, then the voice loop runs. -/
def synthEntry (key : String) (p : PVal) : Except String (List TtsVoice) :=
  match indexVoices p with
  | .error e => .error e
  | .ok vs => synthVoiceLoop key p vs

/-- Descriptor synthesis over the whole table, provider by provider in table
order; the first raised lookup error propagates. -/
def synthesize : ProviderTable → Except String (List TtsVoice)
  | [] => .ok []
  | (k, p) :: rest =>
    match synthEntry k p with
    | .error e => .error e
    | .ok vs =>
      match synthesize rest with
      | .error e => .error e
      | .ok tail => .ok (vs ++ tail)

/-- Comparison used by `sorted(voices, key=lambda v: v.name)`: ascending
lexicographic (code-point) order on the canonical name. -/
def nameLE (a b : TtsVoice) : Prop := a.name ≤ b.name

instance : DecidableRel nameLE := fun a b => inferInstanceAs (Decidable (a.name ≤ b.name))

instance : IsTotal TtsVoice nameLE := ⟨fun a b => le_total a.name b.name⟩

instance : IsTrans TtsVoice nameLE := ⟨fun _ _ _ hab hbc => le_trans hab hbc⟩

/-- The capability advertiser's voice ordering: a stable sort ascending by
name (Python's `sorted` is stable; on a total preorder every stable sort
produces this same list). -/
def advertise (descriptors : List TtsVoice) : List TtsVoice :=
  List.insertionSort nameLE descriptors

/-- The full startup computation given the resolved external sources: load
builtin (failures propagate), apply the override, synthesize, advertise. -/
def startup (bs : BuiltinSource) (os : OverrideSource) : Except String (List TtsVoice) :=
  match loadBuiltin bs with
  | .error e => .error e
  | .ok b =>
    match synthesize (applyOverride b os) with
    | .error e => .error e
    | .ok vs => .ok (advertise vs)

/-- Whether a provider value is a well-shaped object. -/
def isObj : PVal → Bool
  | .obj _ => true
  | .raw _ => false

/-- Whether a provider value is an object carrying both a `voices` and a
`languages` list. -/
def isFull : PVal → Bool
  | .obj ⟨some _, some _⟩ => true
  | _ => false

/-- Number of descriptors a full provider entry contributes: voices times
languages. -/
def entryCount : PVal → Nat
  | .obj ⟨some vs, some ls⟩ => vs.length * ls.length
  | _ => 0

/-- Both lists of a well-shaped entry are duplicate-free (vacuous on other
values, where the lists do not exist). -/
def entryNodup : PVal → Prop
  | .obj e => (e.voices?.getD []).Nodup ∧ (e.languages?.getD []).Nodup
  | .raw _ => True

/-- The elements the list merge appends after the builtin list: each override
element not already present in the builtin list nor appended earlier, first
occurrences, in override order. -/
def newEntries (base : List String) : List String → List String
  | [] => []
  | v :: rest => if v ∈ base then newEntries base rest else v :: newEntries (base ++ [v]) rest

lemma replaceFirstUnderscore_of_not_mem : ∀ (l : List Char), '_' ∉ l → replaceFirstUnderscore l = l
  | [], _ => rfl
  | c :: cs, h => by
    have hc : c ≠ '_' := fun hc => h (hc ▸ List.mem_cons_self c cs)
    have hcs : '_' ∉ cs := fun hm => h (List.mem_cons_of_mem c hm)
    simp [replaceFirstUnderscore, hc, replaceFirstUnderscore_of_not_mem cs hcs]

lemma replaceFirstUnderscore_append : ∀ (a b : List Char), '_' ∉ a →
    replaceFirstUnderscore (a ++ '_' :: b) = a ++ '-' :: b
  | [], b, _ => by simp [replaceFirstUnderscore]
  | c :: cs, b, h => by
    have hc : c ≠ '_' := fun hc => h (hc ▸ List.mem_cons_self c cs)
    have hcs : '_' ∉ cs := fun hm => h (List.mem_cons_of_mem c hm)
    simp [replaceFirstUnderscore, hc, replaceFirstUnderscore_append cs b hcs]

/-- C5: the language normalization used in every canonical voice name turns
exactly the first underscore into a hyphen, leaves later underscores alone,
leaves a tag without underscore unchanged, and maps `en_US_extra` to
`en-US_extra`. -/
theorem normLang_replaces_only_first_underscore (a b : List Char) (h : '_' ∉ a) :
    normLang ⟨a ++ '_' :: b⟩ = ⟨a ++ '-' :: b⟩ ∧ normLang ⟨a⟩ = ⟨a⟩ ∧
    normLang "en_US_extra" = "en-US_extra" :=
  ⟨congrArg String.mk (replaceFirstUnderscore_append a b h),
   congrArg String.mk (replaceFirstUnderscore_of_not_mem a h),
   by decide⟩

/-- Witness for C5 at the spec's own example, split as `"en" ++ "_" ++ "US_extra"`. -/
theorem normLang_replaces_only_first_underscore_witness :
    '_' ∉ ['e', 'n'] ∧
    (normLang ⟨['e', 'n'] ++ '_' :: ['U', 'S', '_', 'e', 'x', 't', 'r', 'a']⟩ =
        ⟨['e', 'n'] ++ '-' :: ['U', 'S', '_', 'e', 'x', 't', 'r', 'a']⟩ ∧
      normLang ⟨['e', 'n']⟩ = ⟨['e', 'n']⟩ ∧ normLang "en_US_extra" = "en-US_extra") :=
  ⟨by decide,
   normLang_replaces_only_first_underscore ['e', 'n'] ['U', 'S', '_', 'e', 'x', 't', 'r', 'a']
     (by decide)⟩

/-- C6 (amended): for a provider key other than `google` and `openai`, the
descriptor is `normalized-language ++ "-" ++ key ++ "-" ++ voice` with
description `key ++ "_" ++ voice`, empty attribution url, and attribution
name `capitalize key`, which uppercases the first character and lowercases
every following character. -/
theorem makeVoice_generic_branch (P v l : String) (hg : P ≠ "google") (ho : P ≠ "openai") :
    makeVoice P v l =
      { name := normLang l ++ "-" ++ P ++ "-" ++ v
        description := P ++ "_" ++ v
        attribution := ⟨capitalize P, ""⟩
        installed := true, version := none, languages := [l], speakers := none } ∧
    ∀ (c : Char) (cs : List Char), P.data = c :: cs →
      capitalize P = ⟨c.toUpper :: cs.map Char.toLower⟩ := by
  constructor
  · simp [makeVoice, hg, ho]
  · intro c cs hP
    simp [capitalize, hP]

/-- Witness for C6 at a generic provider key. -/
theorem makeVoice_generic_branch_witness :
    ("custom1" : String) ≠ "google" ∧
    (makeVoice "custom1" "Bob" "fr_FR" =
      { name := normLang "fr_FR" ++ "-" ++ "custom1" ++ "-" ++ "Bob"
        description := "custom1" ++ "_" ++ "Bob"
        attribution := ⟨capitalize "custom1", ""⟩
        installed := true, version := none, languages := ["fr_FR"], speakers := none } ∧
     ∀ (c : Char) (cs : List Char), ("custom1" : String).data = c :: cs →
       capitalize "custom1" = ⟨c.toUpper :: cs.map Char.toLower⟩) :=
  ⟨by decide, makeVoice_generic_branch "custom1" "Bob" "fr_FR" (by decide) (by decide)⟩

/-- Counterexample to C6 as stated: for the key `"aB"` the source's
`capitalize` lowercases the second character, so the attribution name is
`"Ab"`, not `"AB"` as uppercase-first-leave-rest-unchanged would give. -/
theorem makeVoice_capitalize_cex :
    (makeVoice "aB" "v" "en").attribution.name = "Ab" ∧ ("Ab" : String) ≠ "AB" :=
  ⟨by decide, by decide⟩

/-- C4: the two-provider catalog with google and openai each offering voice
`Aria` in language `en_US` synthesizes exactly the two canonical names
`en-US-Chirp3-HD-Aria` and `en-US-openai-Aria`, which are distinct. -/
theorem synthesize_two_providers_distinct_names :
    (synthesize [("google", .obj ⟨some ["Aria"], some ["en_US"]⟩),
                 ("openai", .obj ⟨some ["Aria"], some ["en_US"]⟩)]).map
        (fun L => L.map TtsVoice.name)
      = .ok ["en-US-Chirp3-HD-Aria", "en-US-openai-Aria"] ∧
    ("en-US-Chirp3-HD-Aria" : String) ≠ "en-US-openai-Aria" :=
  ⟨rfl, by decide⟩

/-- C8 (amended): an override source that fails before the merge loop
(unparsable, unreadable, missing file, or no path) leaves the catalog equal
to the builtin-only table, and a parsed override is processed by the merge
loop, whose state at an exception is what the pipeline continues with. -/
theorem applyOverride_load_failure_builtin_only (b : ProviderTable) (m : String)
    (o : ProviderTable) :
    applyOverride b (.parseError m) = b ∧ applyOverride b (.unreadable m) = b ∧
    applyOverride b .fileMissing = b ∧ applyOverride b .noPath = b ∧
    applyOverride b (.parsed o) = (mergeRun b o).1 :=
  ⟨rfl, rfl, rfl, rfl, rfl⟩

/-- Counterexample to C8 as stated: a structural error in the second
override pair (a non-object provider value for a builtin provider) aborts
the merge loop after the first pair was already inserted, so the final
catalog differs from the builtin-only catalog. -/
theorem applyOverride_mid_merge_error_cex :
    (mergeRun [("g", .obj ⟨some ["A"], some ["en_US"]⟩)]
        [("a", .obj ⟨some ["X"], some ["fr_FR"]⟩), ("g", .raw "notadict")]).2 = true ∧
    applyOverride [("g", .obj ⟨some ["A"], some ["en_US"]⟩)]
        (.parsed [("a", .obj ⟨some ["X"], some ["fr_FR"]⟩), ("g", .raw "notadict")])
      ≠ [("g", .obj ⟨some ["A"], some ["en_US"]⟩)] :=
  ⟨by decide, by decide⟩

/-- C9: a builtin catalog that is missing, unreadable or unparsable makes the
startup computation propagate an error and produce no catalog; the loader
only ever yields the table a parsed source carries, never a degraded one. -/
theorem startup_builtin_failure_propagates (m : String) (os : OverrideSource) :
    startup .notFound os = .error "FileNotFoundError" ∧
    startup (.unreadable m) os = .error m ∧
    startup (.parseError m) os = .error m ∧
    ∀ (bs : BuiltinSource) (t : ProviderTable), loadBuiltin bs = .ok t → bs = .parsed t := by
  refine ⟨rfl, rfl, rfl, ?_⟩
  intro bs t h
  cases bs with
  | notFound => exact absurd h (by simp [loadBuiltin])
  | unreadable m' => exact absurd h (by simp [loadBuiltin])
  | parseError m' => exact absurd h (by simp [loadBuiltin])
  | parsed t' => simp only [loadBuiltin, Except.ok.injEq] at h; rw [h]

/-- Witness for C9 on a concrete failing and a concrete parsed source. -/
theorem startup_builtin_failure_propagates_witness :
    startup .notFound .noPath = .error "FileNotFoundError" ∧
    BuiltinSource.parsed ([] : ProviderTable) = .parsed [] :=
  ⟨(startup_builtin_failure_propagates "" .noPath).1,
   (startup_builtin_failure_propagates "" .noPath).2.2.2 (.parsed []) [] rfl⟩

lemma lookupKey_mem : ∀ {t : ProviderTable} {k : String} {v : PVal},
    lookupKey t k = some v → (k, v) ∈ t
  | [], _, _, h => by cases h
  | (k', v') :: rest, k, v, h => by
    by_cases hk : k' = k
    · subst hk
      simp only [lookupKey, if_true, eq_self_iff_true, Option.some.injEq] at h
      subst h
      exact List.mem_cons_self _ _
    · simp only [lookupKey, if_neg hk] at h
      exact List.mem_cons_of_mem _ (lookupKey_mem h)

lemma mem_setKey : ∀ {t : ProviderTable} {k : String} {e : PVal} (q : String × PVal),
    q ∈ setKey t k e → q ∈ t ∨ q = (k, e)
  | [], _, _, _, h => by cases h
  | (k', v') :: rest, k, e, q, h => by
    by_cases hk : k' = k
    · subst hk
      simp only [setKey, if_true, eq_self_iff_true] at h
      rcases List.mem_cons.1 h with h | h
      · exact Or.inr h
      · exact Or.inl (List.mem_cons_of_mem _ h)
    · simp only [setKey, if_neg hk] at h
      rcases List.mem_cons.1 h with h | h
      · exact Or.inl (h ▸ List.mem_cons_self _ _)
      · rcases mem_setKey q h with h | h
        · exact Or.inl (List.mem_cons_of_mem _ h)
        · exact Or.inr h

lemma lookupKey_append_ne : ∀ (t : ProviderTable) {k k' : String} (v : PVal), k' ≠ k →
    lookupKey (t ++ [(k', v)]) k = lookupKey t k
  | [], k, k', v, h => by simp [lookupKey, h]
  | (k₀, v₀) :: rest, k, k', v, h => by
    by_cases hk : k₀ = k
    · simp [lookupKey, hk]
    · simp only [List.cons_append, lookupKey, if_neg hk]
      exact lookupKey_append_ne rest v h

lemma lookupKey_setKey_ne : ∀ (t : ProviderTable) {k k' : String} (e : PVal), k' ≠ k →
    lookupKey (setKey t k' e) k = lookupKey t k
  | [], _, _, _, _ => rfl
  | (k₀, v₀) :: rest, k, k', e, h => by
    by_cases hk : k₀ = k'
    · subst hk
      simp [setKey, lookupKey, h]
    · simp only [setKey, if_neg hk, lookupKey]
      by_cases hk₂ : k₀ = k
      · simp [hk₂]
      · simp only [if_neg hk₂]
        exact lookupKey_setKey_ne rest e h

lemma lookupKey_setKey_self : ∀ (t : ProviderTable) {k : String} (e : PVal),
    (lookupKey t k).isSome → lookupKey (setKey t k e) k = some e
  | [], k, e, h => by cases h
  | (k₀, v₀) :: rest, k, e, h => by
    by_cases hk : k₀ = k
    · subst hk
      simp [setKey, lookupKey]
    · simp only [lookupKey, if_neg hk] at h
      simp only [setKey, if_neg hk, lookupKey, if_neg hk]
      exact lookupKey_setKey_self rest e h

lemma mergeList_nodup : ∀ (ov base : List String), base.Nodup → (mergeList base ov).Nodup
  | [], _, h => h
  | v :: rest, base, h => by
    by_cases hv : v ∈ base
    · simpa [mergeList, hv] using mergeList_nodup rest base h
    · have hb : (base ++ [v]).Nodup := by
        simp [List.nodup_append, h, hv]
      simpa [mergeList, hv] using mergeList_nodup rest (base ++ [v]) hb

lemma mergeRun_entryNodup : ∀ (o : List (String × PVal)) (t : ProviderTable),
    (∀ q ∈ t, entryNodup q.2) → (∀ q ∈ o, entryNodup q.2) →
    ∀ q ∈ (mergeRun t o).1, entryNodup q.2
  | [], t, ht, _ => ht
  | (k, v) :: rest, t, ht, ho => by
    cases hlk : lookupKey t k with
    | none =>
      simp only [mergeRun, mergeStep, hlk]
      apply mergeRun_entryNodup rest
      · intro q hq
        rcases List.mem_append.1 hq with h | h
        · exact ht q h
        · rw [List.mem_singleton.1 h]
          exact ho (k, v) (List.mem_cons_self _ _)
      · intro q hq
        exact ho q (List.mem_cons_of_mem _ hq)
    | some b =>
      cases b with
      | raw s =>
        simp only [mergeRun, mergeStep, hlk]
        exact ht
      | obj be =>
        cases v with
        | raw s =>
          simp only [mergeRun, mergeStep, hlk]
          exact ht
        | obj pe =>
          simp only [mergeRun, mergeStep, hlk]
          apply mergeRun_entryNodup rest
          · intro q hq
            rcases mem_setKey q hq with h | h
            · exact ht q h
            · have hbe := ht (k, .obj be) (lookupKey_mem hlk)
              rw [h]
              exact ⟨mergeList_nodup _ _ hbe.1, mergeList_nodup _ _ hbe.2⟩
          · intro q hq
            exact ho q (List.mem_cons_of_mem _ hq)

/-- C1 (amended): when every voice list and language list in the builtin
table and in the override table is duplicate-free, every voice list and
language list in the merged table is duplicate-free. -/
theorem merge_lists_nodup (b o : ProviderTable)
    (hb : ∀ q ∈ b, entryNodup q.2) (ho : ∀ q ∈ o, entryNodup q.2) :
    ∀ q ∈ merge b o, entryNodup q.2 :=
  mergeRun_entryNodup o b hb ho

/-- Witness for C1 on a concrete overlapping merge. -/
theorem merge_lists_nodup_witness :
    (∀ q ∈ ([("g", PVal.obj ⟨some ["A"], some ["en_US"]⟩)] : ProviderTable), entryNodup q.2) ∧
    ∀ q ∈ merge [("g", PVal.obj ⟨some ["A"], some ["en_US"]⟩)]
        [("g", PVal.obj ⟨some ["A", "B"], some ["en_US"]⟩)], entryNodup q.2 := by
  constructor
  · intro q hq
    rw [List.mem_singleton.1 hq]
    exact ⟨by decide, by decide⟩
  · apply merge_lists_nodup
    · intro q hq
      rw [List.mem_singleton.1 hq]
      exact ⟨by decide, by decide⟩
    · intro q hq
      rw [List.mem_singleton.1 hq]
      exact ⟨by decide, by decide⟩

/-- Counterexample to C1 as stated: an override-only provider whose own
voices list repeats `"A"` passes through the merge unchanged, so the merged
table contains a repeated voice. -/
theorem merge_lists_nodup_cex :
    merge [] [("p", .obj ⟨some ["A", "A"], some []⟩)]
      = [("p", .obj ⟨some ["A", "A"], some []⟩)] ∧
    lookupKey [("p", PVal.obj ⟨some ["A", "A"], some []⟩)] "p"
      = some (.obj ⟨some ["A", "A"], some []⟩) ∧
    ¬ (["A", "A"] : List String).Nodup :=
  ⟨by decide, by decide, by decide⟩

lemma mergeList_eq_append : ∀ (ov base : List String),
    mergeList base ov = base ++ newEntries base ov
  | [], base => by simp [mergeList, newEntries]
  | v :: rest, base => by
    by_cases hv : v ∈ base
    · simp [mergeList, newEntries, hv, mergeList_eq_append rest base]
    · simp [mergeList, newEntries, hv, mergeList_eq_append rest (base ++ [v])]

lemma newEntries_mem : ∀ (ov base : List String) (x : String),
    x ∈ newEntries base ov → x ∈ ov ∧ x ∉ base
  | [], _, _, h => by cases h
  | v :: rest, base, x, h => by
    by_cases hv : v ∈ base
    · simp only [newEntries, if_pos hv] at h
      have := newEntries_mem rest base x h
      exact ⟨List.mem_cons_of_mem _ this.1, this.2⟩
    · simp only [newEntries, if_neg hv] at h
      rcases List.mem_cons.1 h with h | h
      · exact ⟨h ▸ List.mem_cons_self _ _, h ▸ hv⟩
      · have := newEntries_mem rest (base ++ [v]) x h
        refine ⟨List.mem_cons_of_mem _ this.1, fun hx => this.2 ?_⟩
        exact List.mem_append.2 (Or.inl hx)

lemma mergeRun_no_error_of_obj : ∀ (o : List (String × PVal)) (t : ProviderTable),
    (∀ q ∈ t, isObj q.2 = true) → (∀ q ∈ o, isObj q.2 = true) →
    (mergeRun t o).2 = false ∧ ∀ q ∈ (mergeRun t o).1, isObj q.2 = true
  | [], t, ht, _ => ⟨rfl, ht⟩
  | (k, v) :: rest, t, ht, ho => by
    have hv : isObj v = true := ho (k, v) (List.mem_cons_self _ _)
    have ho' : ∀ q ∈ rest, isObj q.2 = true := fun q hq => ho q (List.mem_cons_of_mem _ hq)
    cases hlk : lookupKey t k with
    | none =>
      simp only [mergeRun, mergeStep, hlk]
      apply mergeRun_no_error_of_obj rest
      · intro q hq
        rcases List.mem_append.1 hq with h | h
        · exact ht q h
        · rw [List.mem_singleton.1 h]
          exact hv
      · exact ho'
    | some b =>
      cases b with
      | raw s => exact absurd (ht (k, .raw s) (lookupKey_mem hlk)) (by simp [isObj])
      | obj be =>
        cases v with
        | raw s => exact absurd hv (by simp [isObj])
        | obj pe =>
          simp only [mergeRun, mergeStep, hlk]
          apply mergeRun_no_error_of_obj rest
          · intro q hq
            rcases mem_setKey q hq with h | h
            · exact ht q h
            · rw [h]
              rfl
          · exact ho'

lemma mergeRun_append_of_no_error : ∀ (o₁ : List (String × PVal)) (t : ProviderTable)
    (o₂ : List (String × PVal)), (mergeRun t o₁).2 = false →
    mergeRun t (o₁ ++ o₂) = mergeRun (mergeRun t o₁).1 o₂
  | [], t, o₂, _ => rfl
  | (k, v) :: rest, t, o₂, h => by
    cases hstep : mergeStep t k v with
    | ok t' =>
      have h' : (mergeRun t' rest).2 = false := by
        simpa only [mergeRun, hstep] using h
      simp only [List.cons_append, mergeRun, hstep]
      exact mergeRun_append_of_no_error rest t' o₂ h'
    | error t' =>
      exact absurd (by simpa only [mergeRun, hstep] using h) (by simp)

lemma mergeRun_lookup_ne : ∀ (o : List (String × PVal)) (t : ProviderTable) (k : String),
    (∀ q ∈ o, q.1 ≠ k) → lookupKey (mergeRun t o).1 k = lookupKey t k
  | [], _, _, _ => rfl
  | (k', v) :: rest, t, k, hne => by
    have hk : k' ≠ k := hne (k', v) (List.mem_cons_self _ _)
    have hne' : ∀ q ∈ rest, q.1 ≠ k := fun q hq => hne q (List.mem_cons_of_mem _ hq)
    cases hlk : lookupKey t k' with
    | none =>
      simp only [mergeRun, mergeStep, hlk]
      rw [mergeRun_lookup_ne rest _ k hne']
      exact lookupKey_append_ne t v hk
    | some b =>
      cases b with
      | raw s => simp only [mergeRun, mergeStep, hlk]
      | obj be =>
        cases v with
        | raw s => simp only [mergeRun, mergeStep, hlk]
        | obj pe =>
          simp only [mergeRun, mergeStep, hlk]
          rw [mergeRun_lookup_ne rest _ k hne']
          exact lookupKey_setKey_ne t _ hk

/-- C2 (amended): for a provider present in both tables (all values
well-shaped objects, the provider occurring once in the override), the merged
voices list is the builtin list followed by the override voices not already
present in the builtin list nor appended earlier, first occurrences in
override order; its prefix of the builtin list's length is the builtin list;
every appended element is an override voice absent from the builtin list.
The same holds for the languages lists. -/
theorem merge_builtin_prefix_tail (b : ProviderTable) (o₁ o₂ : List (String × PVal))
    (k : String) (eb ep : RawEntry)
    (hb : ∀ q ∈ b, isObj q.2 = true) (h1 : ∀ q ∈ o₁, isObj q.2 = true)
    (hk1 : ∀ q ∈ o₁, q.1 ≠ k) (hk2 : ∀ q ∈ o₂, q.1 ≠ k)
    (hlook : lookupKey b k = some (.obj eb)) :
    lookupKey (merge b (o₁ ++ (k, .obj ep) :: o₂)) k =
      some (.obj
        ⟨some (eb.voices?.getD [] ++ newEntries (eb.voices?.getD []) (ep.voices?.getD [])),
         some (eb.languages?.getD [] ++
           newEntries (eb.languages?.getD []) (ep.languages?.getD []))⟩) ∧
    ((eb.voices?.getD [] ++ newEntries (eb.voices?.getD []) (ep.voices?.getD [])).take
        (eb.voices?.getD []).length = eb.voices?.getD []) ∧
    (∀ x ∈ newEntries (eb.voices?.getD []) (ep.voices?.getD []),
      x ∈ ep.voices?.getD [] ∧ x ∉ eb.voices?.getD []) ∧
    (∀ x ∈ newEntries (eb.languages?.getD []) (ep.languages?.getD []),
      x ∈ ep.languages?.getD [] ∧ x ∉ eb.languages?.getD []) := by
  have hrun := mergeRun_no_error_of_obj o₁ b hb h1
  have hlook₁ : lookupKey (mergeRun b o₁).1 k = some (.obj eb) := by
    rw [mergeRun_lookup_ne o₁ b k hk1]
    exact hlook
  refine ⟨?_, List.take_left _ _, fun x => newEntries_mem _ _ x, fun x => newEntries_mem _ _ x⟩
  show lookupKey (mergeRun b (o₁ ++ (k, .obj ep) :: o₂)).1 k = _
  rw [mergeRun_append_of_no_error o₁ b _ hrun.1]
  simp only [mergeRun, mergeStep, hlook₁]
  rw [mergeRun_lookup_ne o₂ _ k hk2]
  rw [lookupKey_setKey_self _ _ (by rw [hlook₁]; rfl)]
  rw [mergeList_eq_append, mergeList_eq_append]

/-- Witness for C2: google's builtin voice list `["A"]` extended by override
voices `["B", "B"]`, with an unrelated provider merged first. -/
theorem merge_builtin_prefix_tail_witness :
    lookupKey (merge [("g", PVal.obj ⟨some ["A"], some ["en_US"]⟩)]
        ([("h", PVal.obj ⟨some ["X"], some []⟩)] ++
          ("g", PVal.obj ⟨some ["B", "B"], some []⟩) :: [])) "g" =
      some (.obj
        ⟨some ((RawEntry.mk (some ["A"]) (some ["en_US"])).voices?.getD [] ++
            newEntries ((RawEntry.mk (some ["A"]) (some ["en_US"])).voices?.getD [])
              ((RawEntry.mk (some ["B", "B"]) (some [])).voices?.getD [])),
         some ((RawEntry.mk (some ["A"]) (some ["en_US"])).languages?.getD [] ++
            newEntries ((RawEntry.mk (some ["A"]) (some ["en_US"])).languages?.getD [])
              ((RawEntry.mk (some ["B", "B"]) (some [])).languages?.getD []))⟩) :=
  (merge_builtin_prefix_tail [("g", .obj ⟨some ["A"], some ["en_US"]⟩)]
    [("h", .obj ⟨some ["X"], some []⟩)] [] "g"
    (RawEntry.mk (some ["A"]) (some ["en_US"])) (RawEntry.mk (some ["B", "B"]) (some []))
    (by decide) (by decide) (by decide) (by decide) (by decide)).1

/-- Counterexample to C2 as stated: with builtin voices `["A"]` and override
voices `["B", "B"]` the merged list is `["A", "B"]`, not the builtin list
followed by all override voices absent from the builtin list. -/
theorem merge_builtin_prefix_tail_cex :
    lookupKey (merge [("p", .obj ⟨some ["A"], some []⟩)]
        [("p", .obj ⟨some ["B", "B"], some []⟩)]) "p"
      = some (.obj ⟨some ["A", "B"], some []⟩) ∧
    (["A", "B"] : List String) ≠
      ["A"] ++ (["B", "B"].filter (fun v => !(["A"].contains v))) :=
  ⟨by decide, by decide⟩

lemma synthVoiceLoop_ok (k : String) (p : PVal) (ls : List String)
    (h : indexLanguages p = .ok ls) :
    ∀ l : List String,
      synthVoiceLoop k p l = .ok (l.flatMap (fun v => ls.map (makeVoice k v)))
  | [] => rfl
  | v :: rest => by
    simp only [synthVoiceLoop, h, synthVoiceLoop_ok k p ls h rest, List.flatMap_cons]

lemma synthEntry_ok (k : String) (vs ls : List String) :
    synthEntry k (.obj ⟨some vs, some ls⟩) =
      .ok (vs.flatMap (fun v => ls.map (makeVoice k v))) := by
  simp only [synthEntry, indexVoices]
  exact synthVoiceLoop_ok k (.obj ⟨some vs, some ls⟩) ls rfl vs

/-- C3: on a table whose entries all carry both lists, synthesis succeeds and
produces, provider by provider, voices-times-languages descriptors: the total
output length is the sum over providers of `m * n`. -/
theorem synthesize_cross_product (t : ProviderTable)
    (hfull : ∀ q ∈ t, isFull q.2 = true) :
    ∃ L, synthesize t = .ok L ∧
      L.length = (t.map (fun q => entryCount q.2)).sum := by
  induction t with
  | nil => exact ⟨[], rfl, rfl⟩
  | cons q rest ih =>
    obtain ⟨L, hL, hlen⟩ := ih (fun q' hq' => hfull q' (List.mem_cons_of_mem _ hq'))
    obtain ⟨k, p⟩ := q
    have hq : isFull p = true := hfull (k, p) (List.mem_cons_self _ _)
    cases p with
    | raw s => simp [isFull] at hq
    | obj e =>
      obtain ⟨vs?, ls?⟩ := e
      cases vs? with
      | none => simp [isFull] at hq
      | some vs =>
        cases ls? with
        | none => simp [isFull] at hq
        | some ls =>
          refine ⟨vs.flatMap (fun v => ls.map (makeVoice k v)) ++ L, ?_, ?_⟩
          · simp only [synthesize, synthEntry_ok, hL]
          · simp only [List.length_append, hlen, List.map_cons, List.sum_cons,
              entryCount, List.length_flatMap, Function.comp_def, List.length_map,
              List.map_const', List.sum_replicate, smul_eq_mul]

/-- Witness for C3 on a one-provider table with one voice and two languages. -/
theorem synthesize_cross_product_witness :
    ∃ L, synthesize [("g", PVal.obj ⟨some ["a"], some ["l1", "l2"]⟩)] = .ok L ∧
      L.length = (([("g", PVal.obj ⟨some ["a"], some ["l1", "l2"]⟩)] :
          ProviderTable).map (fun q => entryCount q.2)).sum :=
  synthesize_cross_product [("g", .obj ⟨some ["a"], some ["l1", "l2"]⟩)]
    (by intro q hq; rw [List.mem_singleton.1 hq]; rfl)

/-- C7: the advertiser's voice ordering is a permutation of its input, is
sorted ascending by canonical name under lexicographic string comparison,
and re-sorting an already sorted sequence changes nothing. -/
theorem advertise_sorted_perm_idempotent (l : List TtsVoice) :
    (advertise l).Perm l ∧ List.Sorted nameLE (advertise l) ∧
    advertise (advertise l) = advertise l :=
  ⟨List.perm_insertionSort nameLE l, List.sorted_insertionSort nameLE l,
   List.Sorted.insertionSort_eq (List.sorted_insertionSort nameLE l)⟩

lemma synthesize_error_of_mem : ∀ (t : ProviderTable) (k : String) (p : PVal),
    (k, p) ∈ t → (synthEntry k p).isOk = false → (synthesize t).isOk = false
  | [], _, _, h, _ => by cases h
  | (k', p') :: rest, k, p, hmem, herr => by
    rcases List.mem_cons.1 hmem with h | h
    · injection h with hk hp
      subst hk
      subst hp
      cases hstep : synthEntry k p with
      | error e => simp [synthesize, hstep, Except.isOk, Except.toBool]
      | ok vs => rw [hstep] at herr; exact absurd herr (by simp [Except.isOk, Except.toBool])
    · have hih := synthesize_error_of_mem rest k p h herr
      cases hstep : synthEntry k' p' with
      | error e => simp [synthesize, hstep, Except.isOk, Except.toBool]
      | ok vs =>
        cases hrest : synthesize rest with
        | error e => simp [synthesize, hstep, hrest, Except.isOk, Except.toBool]
        | ok tail => rw [hrest] at hih; exact absurd hih (by simp [Except.isOk, Except.toBool])

/-- C10 (amended): an entry with no `voices` key makes synthesis raise a
voices lookup error; an entry with a nonempty voices list and no `languages`
key raises a languages lookup error; an entry carrying both lists never
raises; one failing entry anywhere in the table fails the whole synthesis;
and the merge rewrites a provider present in both tables to an object
carrying both keys.  (An entry whose voices list is empty never reaches the
languages lookup, so a missing `languages` key alone does not crash.) -/
theorem synthesize_missing_key_behavior (k v : String) (vs ls : List String)
    (ls? : Option (List String)) (t : ProviderTable) (p : PVal)
    (tb : ProviderTable) (eb ep : RawEntry)
    (hmem : (k, p) ∈ t) (herr : (synthEntry k p).isOk = false)
    (hlook : lookupKey tb k = some (.obj eb)) :
    synthEntry k (.obj ⟨none, ls?⟩) = .error "KeyError: voices" ∧
    synthEntry k (.obj ⟨some (v :: vs), none⟩) = .error "KeyError: languages" ∧
    (∃ L, synthEntry k (.obj ⟨some vs, some ls⟩) = .ok L) ∧
    (synthesize t).isOk = false ∧
    mergeStep tb k (.obj ep) = .ok (setKey tb k (.obj
      ⟨some (mergeList (eb.voices?.getD []) (ep.voices?.getD [])),
       some (mergeList (eb.languages?.getD []) (ep.languages?.getD []))⟩)) := by
  refine ⟨rfl, rfl, ⟨_, synthEntry_ok k vs ls⟩, synthesize_error_of_mem t k p hmem herr, ?_⟩
  simp only [mergeStep, hlook]

/-- Witness for C10 on a one-provider table whose entry lacks both keys. -/
theorem synthesize_missing_key_behavior_witness :
    (("p", PVal.obj ⟨none, none⟩) ∈ ([("p", PVal.obj ⟨none, none⟩)] : ProviderTable)) ∧
    (synthEntry "p" (.obj ⟨none, none⟩)).isOk = false ∧
    (synthesize [("p", PVal.obj ⟨none, none⟩)]).isOk = false :=
  ⟨by decide, by decide,
   (synthesize_missing_key_behavior "p" "v" ["v"] ["l"] none
      [("p", .obj ⟨none, none⟩)] (.obj ⟨none, none⟩)
      [("p", .obj ⟨some [], some []⟩)] (RawEntry.mk (some []) (some []))
      (RawEntry.mk (some ["x"]) (some []))
      (by decide) (by decide) (by decide)).2.2.2.1⟩

/-- Counterexample to C10 as stated: an entry lacking the `languages` key but
carrying an empty voices list synthesizes successfully (to no descriptors)
instead of raising a lookup error. -/
theorem synthesize_empty_voices_missing_languages_cex :
    (RawEntry.mk (some []) none).languages? = none ∧
    synthesize [("p", .obj ⟨some [], none⟩)] = .ok [] :=
  ⟨rfl, rfl⟩

end WyomingCloudStreamer
